import Mathlib

/-!
Shallow embedding of the GBCE core (gbce package: stocks/base.py,
stocks/common.py, stocks/preferred.py, exchange.py, models/trade.py).

Modelling conventions:
  * Python unbounded `int` values are `ℤ`.
  * `Decimal` arithmetic is exact rational arithmetic (`ℚ`); the single
    rounding point `two-digit ROUND_HALF_UP quantize` is
    `roundHalfUp2`.
  * `float` arithmetic in the index (`math.log` / `math.exp`) is exact real
    arithmetic (`ℝ`), with `roundHalfUp2R` for the final quantize.
  * `datetime` instants are `ℚ` measured in minutes, so that
    `timedelta(minutes=m)` is subtraction of `m`; `datetime.now()` becomes
    an explicit `now` parameter.
  * A Python method that can raise returns `Option`/`Except`: `none`/`error`
    is the raised exception, and the pre-state is untouched because the
    `raise` happens before any mutation in the source.
-/

namespace GBCE

/-- Trade direction, models.enums.TradeIndicator; pure classification. -/
inductive TradeIndicator where
  | buy : TradeIndicator
  | sell : TradeIndicator
deriving DecidableEq

/-- Immutable trade record, models/trade.py `Trade`. -/
structure Trade where
  timestamp : ℚ
  quantity : ℤ
  indicator : TradeIndicator
  price_pennies : ℤ
deriving DecidableEq

/-- `Decimal.two-digit ROUND_HALF_UP quantize`: round to 2 fractional
digits, ties away from zero. -/
def roundHalfUp2 (x : ℚ) : ℚ :=
  if 0 ≤ x then ((⌊x * 100 + 1/2⌋ : ℤ) : ℚ) / 100
  else -(((⌊-x * 100 + 1/2⌋ : ℤ) : ℚ) / 100)

/-- The dividend-policy variant of a stock: CommonStock, or PreferredStock
carrying its `fixed_dividend_pct` (a Python float, modelled as the exact
rational it denotes). -/
inductive StockKind where
  | common : StockKind
  | preferred : ℚ → StockKind
deriving DecidableEq

/-- A constructed stock: shared fields of stocks/base.py `Stock` plus the
subclass data.  `last_dividend_pennies` is stored by both subclasses. -/
structure Stock where
  symbol : String
  par_value_pennies : ℤ
  last_dividend_pennies : ℤ
  kind : StockKind
  trades : List Trade
deriving DecidableEq

/-- CommonStock(symbol, last_dividend_pennies, par_value_pennies):
base checks (`not symbol or len(symbol) > 10`, `par_value_pennies <= 0`) run
first via `super().__init__`, then the subclass checks
`last_dividend_pennies < 0`.  `none` is the raised ValueError. -/
def mkCommonStock (symbol : String) (last_dividend_pennies par_value_pennies : ℤ) :
    Option Stock :=
  if symbol.length = 0 ∨ symbol.length > 10 then none
  else if par_value_pennies ≤ 0 then none
  else if last_dividend_pennies < 0 then none
  else some ⟨symbol, par_value_pennies, last_dividend_pennies, StockKind.common, []⟩

/-- PreferredStock(symbol, last_dividend_pennies, fixed_dividend_pct,
par_value_pennies): base checks first, then `not 0 < fixed_dividend_pct <= 1.0`.
The source performs no check on `last_dividend_pennies` here. -/
def mkPreferredStock (symbol : String) (last_dividend_pennies : ℤ)
    (fixed_dividend_pct : ℚ) (par_value_pennies : ℤ) : Option Stock :=
  if symbol.length = 0 ∨ symbol.length > 10 then none
  else if par_value_pennies ≤ 0 then none
  else if ¬(0 < fixed_dividend_pct ∧ fixed_dividend_pct ≤ 1) then none
  else some ⟨symbol, par_value_pennies, last_dividend_pennies,
    StockKind.preferred fixed_dividend_pct, []⟩

/-- Stock.pe_ratio: `None` if `price_pennies <= 0 or last_dividend_pennies == 0`,
otherwise the exact Decimal quotient (no quantize in the source). -/
def pe_ratio_q (s : Stock) (price_pennies : ℤ) : Option ℚ :=
  if price_pennies ≤ 0 ∨ s.last_dividend_pennies = 0 then none
  else some ((price_pennies : ℚ) / (s.last_dividend_pennies : ℚ))

/-- dividend_yield, dispatched on the subclass:
CommonStock returns Decimal zero for non-positive price, else
`last_dividend * 100 / price` quantized; PreferredStock returns
Decimal zero for non-positive price, else
`(fixed_dividend_pct * par_value) * 100 / price` quantized. -/
def dividend_yield (s : Stock) (price_pennies : ℤ) : ℚ :=
  match s.kind with
  | StockKind.common =>
      if price_pennies ≤ 0 then 0
      else roundHalfUp2 ((s.last_dividend_pennies : ℚ) * 100 / (price_pennies : ℚ))
  | StockKind.preferred rate =>
      if price_pennies ≤ 0 then 0
      else roundHalfUp2 (rate * (s.par_value_pennies : ℚ) * 100 / (price_pennies : ℚ))

/-- Stock.record_trade: raises (`none`) if `quantity <= 0 or price_pennies <= 0`,
before any mutation; otherwise appends one Trade timestamped `now`. -/
def record_trade (s : Stock) (now : ℚ) (quantity : ℤ) (indicator : TradeIndicator)
    (price_pennies : ℤ) : Option Stock :=
  if quantity ≤ 0 ∨ price_pennies ≤ 0 then none
  else some { s with trades := s.trades ++ [⟨now, quantity, indicator, price_pennies⟩] }

/-- The window query: the source list comprehension
`[t for t in self._trades if t.timestamp >= cutoff]`. -/
def tradesSince (trades : List Trade) (cutoff : ℚ) : List Trade :=
  trades.filter (fun t => decide (cutoff ≤ t.timestamp))

/-- The arithmetic tail of volume_weighted_stock_price, applied to an
already-filtered trade list. -/
def vwspOfTrades (recent : List Trade) : Option ℚ :=
  if recent.isEmpty then none
  else
    let total_qty : ℤ := (recent.map (fun t => t.quantity)).sum
    if total_qty = 0 then none
    else
      let weighted : ℤ := (recent.map (fun t => t.quantity * t.price_pennies)).sum
      some (roundHalfUp2 ((weighted : ℚ) / (total_qty : ℚ) / 100))

/-- Stock.volume_weighted_stock_price(minutes_back): cutoff = now - minutes_back,
filter the ledger, `None` if no recent trades or zero total quantity, else the
quantity-weighted mean price in pennies divided by 100, quantized once. -/
def volume_weighted_stock_price (s : Stock) (now : ℚ) (minutes_back : ℤ) : Option ℚ :=
  let cutoff := now - (minutes_back : ℚ)
  let recent := s.trades.filter (fun t => decide (cutoff ≤ t.timestamp))
  if recent.isEmpty then none
  else
    let total_qty : ℤ := (recent.map (fun t => t.quantity)).sum
    if total_qty = 0 then none
    else
      let weighted : ℤ := (recent.map (fun t => t.quantity * t.price_pennies)).sum
      some (roundHalfUp2 ((weighted : ℚ) / (total_qty : ℚ) / 100))

/-- The exchange registry: an insertion-ordered symbol-to-stock map
(Python dict preserves insertion order). -/
structure Exchange where
  stocks : List (String × Stock)
deriving DecidableEq

/-- `GlobalBeverageCorpExchange()`. -/
def emptyExchange : Exchange := ⟨[]⟩

/-- `symbol in self._stocks`. -/
def Exchange.hasSymbol (e : Exchange) (symbol : String) : Bool :=
  e.stocks.any (fun p => decide (p.1 = symbol))

/-- Exchange.get_stock: `None` plays the raised KeyError. -/
def get_stock (e : Exchange) (symbol : String) : Option Stock :=
  (e.stocks.find? (fun p => decide (p.1 = symbol))).map (fun p => p.2)

/-- The two distinct raise sites of the create factories. -/
inductive CreateError where
  | duplicateSymbol : CreateError
  | invalidStock : CreateError
deriving DecidableEq

/-- Exchange.create_common_stock: duplicate check first, then construction;
on success the new stock is inserted under its symbol and returned. -/
def create_common_stock (e : Exchange) (symbol : String)
    (last_dividend par_value : ℤ) : Except CreateError (Exchange × Stock) :=
  if e.hasSymbol symbol then Except.error CreateError.duplicateSymbol
  else
    match mkCommonStock symbol last_dividend par_value with
    | none => Except.error CreateError.invalidStock
    | some st => Except.ok (⟨e.stocks ++ [(symbol, st)]⟩, st)

/-- Exchange.create_preferred_stock, same shape. -/
def create_preferred_stock (e : Exchange) (symbol : String) (last_dividend : ℤ)
    (fixed_dividend_pct : ℚ) (par_value : ℤ) : Except CreateError (Exchange × Stock) :=
  if e.hasSymbol symbol then Except.error CreateError.duplicateSymbol
  else
    match mkPreferredStock symbol last_dividend fixed_dividend_pct par_value with
    | none => Except.error CreateError.invalidStock
    | some st => Except.ok (⟨e.stocks ++ [(symbol, st)]⟩, st)

/-- The list the index builds before filtering:
`[float(stock.volume_weighted_stock_price() or 0) for stock in ...]` followed by
`[v for v in vwsps if v > 0]`.  `or 0` turns both `None` and a falsy zero
Decimal into 0, which the positivity filter then drops. -/
def qualifyingVWSPs (stocks : List Stock) (now : ℚ) : List ℚ :=
  ((stocks.map (fun s => (volume_weighted_stock_price s now 5).getD 0)).filter
    (fun v => decide (0 < v)))

/-- `Decimal(str(...)).two-digit ROUND_HALF_UP quantize` on the real
value of the float result. -/
noncomputable def roundHalfUp2R (x : ℝ) : ℝ :=
  if 0 ≤ x then ((⌊x * 100 + 1/2⌋ : ℤ) : ℝ) / 100
  else -(((⌊-x * 100 + 1/2⌋ : ℤ) : ℝ) / 100)

/-- Exchange.gbce_all_share_index: collect positive current VWSPs over the
registered stocks, `None` when none qualify, otherwise
`exp(sum(log v_i) / n)` quantized once. -/
noncomputable def gbce_all_share_index (e : Exchange) (now : ℚ) : Option ℝ :=
  let pos := qualifyingVWSPs (e.stocks.map (fun p => p.2)) now
  if pos.isEmpty then none
  else
    let log_sum : ℝ := (pos.map (fun v => Real.log ((v : ℚ) : ℝ))).sum
    some (roundHalfUp2R (Real.exp (log_sum / (pos.length : ℝ))))

/-! Concrete fixtures used to instantiate the theorems below. -/

/-- The spec worked example: two trades, qty 1000 at 9550 pennies and qty 2000
at 10230 pennies, both timestamped at the evaluation instant. -/
def exampleStock : Stock :=
  ⟨"TEA", 10000, 0, StockKind.common,
    [⟨0, 1000, TradeIndicator.buy, 9550⟩, ⟨0, 2000, TradeIndicator.sell, 10230⟩]⟩

/-- A freshly constructed common stock with an empty ledger. -/
def stockTEA0 : Stock := ⟨"TEA", 10000, 0, StockKind.common, []⟩

/-- `stockTEA0` after one recorded trade. -/
def stockTEA1 : Stock :=
  ⟨"TEA", 10000, 0, StockKind.common, [⟨0, 1000, TradeIndicator.buy, 9550⟩]⟩

/-- A common stock with a positive last dividend, for yield and P/E examples. -/
def stockPOP : Stock := ⟨"POP", 10000, 8, StockKind.common, []⟩

/-- A preferred stock with rate 1/50 of a 10000-penny par value. -/
def stockGIN : Stock := ⟨"GIN", 10000, 8, StockKind.preferred (1/50), []⟩

/-- A stock whose only trade is 10 minutes old. -/
def stockOld : Stock :=
  ⟨"OLD", 100, 0, StockKind.common, [⟨-10, 5, TradeIndicator.buy, 100⟩]⟩

/-- An exchange holding just `stockTEA0` under its symbol. -/
def exchangeTEA : Exchange := ⟨[("TEA", stockTEA0)]⟩

/-- A stock whose current VWSP is exactly 4.00. -/
def stockFour : Stock :=
  ⟨"FOUR", 100, 0, StockKind.common, [⟨0, 1, TradeIndicator.buy, 400⟩]⟩

/-- A stock whose current VWSP is exactly 9.00. -/
def stockNine : Stock :=
  ⟨"NINE", 100, 0, StockKind.common, [⟨0, 1, TradeIndicator.buy, 900⟩]⟩

/-- An exchange whose two stocks have VWSPs 4.00 and 9.00. -/
def exchangeFourNine : Exchange := ⟨[("FOUR", stockFour), ("NINE", stockNine)]⟩

/-! Theorems. -/

/-- C1: for trades all inside the lookback window, volume_weighted_stock_price
is the quantity-weighted mean of the trade prices, computed exactly and rounded
once, half-up, to two digits; on the worked example (qty 1000 at 9550 pennies,
qty 2000 at 10230 pennies) the result is 100.03. -/
theorem vwsp_single_rounding_formula :
    (∀ (s : Stock) (now : ℚ) (w : ℤ),
        s.trades ≠ [] →
        (∀ t ∈ s.trades, now - (w : ℚ) ≤ t.timestamp) →
        ((s.trades.map (fun t => t.quantity)).sum : ℤ) ≠ 0 →
        volume_weighted_stock_price s now w =
          some (roundHalfUp2
            ((((s.trades.map (fun t => t.quantity * t.price_pennies)).sum : ℤ) : ℚ) /
              (((s.trades.map (fun t => t.quantity)).sum : ℤ) : ℚ) / 100))) ∧
    volume_weighted_stock_price exampleStock 0 5 = some (10003 / 100) := by
  constructor
  · intro s now w hne hwin hq
    have hfil : s.trades.filter (fun t => decide (now - (w : ℚ) ≤ t.timestamp)) = s.trades :=
      List.filter_eq_self.mpr (fun t ht => decide_eq_true (hwin t ht))
    have hemp : s.trades.isEmpty = false := by
      cases h : s.trades with
      | nil => exact absurd h hne
      | cons a l => rfl
    simp only [volume_weighted_stock_price, hfil, hemp]
    simp [hq]
  · norm_num [volume_weighted_stock_price, exampleStock, roundHalfUp2]

/-- Witness for C1: the general formula applied to the worked example. -/
theorem vwsp_single_rounding_formula_witness :
    volume_weighted_stock_price exampleStock 0 5 =
      some (roundHalfUp2
        ((((exampleStock.trades.map (fun t => t.quantity * t.price_pennies)).sum : ℤ) : ℚ) /
          (((exampleStock.trades.map (fun t => t.quantity)).sum : ℤ) : ℚ) / 100)) :=
  vwsp_single_rounding_formula.1 exampleStock 0 5 (by simp [exampleStock])
    (by norm_num [exampleStock]) (by norm_num [exampleStock])

/-- C1 counterexample: on the worked example the code does not produce the
spec headline value 100.37; the exact result is 100.03. -/
theorem vwsp_worked_example_not_10037 :
    volume_weighted_stock_price exampleStock 0 5 ≠ some (10037 / 100) := by
  norm_num [volume_weighted_stock_price, exampleStock, roundHalfUp2]

/-- C3 counterexample: PreferredStock construction performs no check on the
last dividend, so a preferred stock with a negative last dividend is
successfully constructed, against the claim that every constructed Stock has a
non-negative last dividend. -/
theorem preferred_negative_dividend_accepted :
    (mkPreferredStock "NEG" (-1) (1/2) 100).isSome = true ∧
    (mkPreferredStock "NEG" (-1) (1/2) 100).map (fun st => st.last_dividend_pennies) =
      some (-1) := by
  have h : mkPreferredStock "NEG" (-1) (1/2) 100 =
      some ⟨"NEG", 100, -1, StockKind.preferred (1/2), []⟩ := by
    unfold mkPreferredStock
    rw [if_neg (by decide), if_neg (by decide), if_neg (by norm_num)]
  rw [h]
  exact ⟨rfl, rfl⟩

/-- C3 (amended): a constructed stock always has a 1-to-10-character symbol and
a strictly positive par value; a constructed CommonStock additionally has a
non-negative last dividend and a constructed PreferredStock a fixed dividend
rate in (0, 1], while its last dividend is unconstrained; construction fails on
every input violating the checks that do exist, and the stored fields are
exactly the validated arguments. -/
theorem stock_construction_validation :
    (∀ (sym : String) (ld par : ℤ),
        (mkCommonStock sym ld par).isSome = true ↔
          (1 ≤ sym.length ∧ sym.length ≤ 10 ∧ 0 < par ∧ 0 ≤ ld)) ∧
    (∀ (sym : String) (ld : ℤ) (rate : ℚ) (par : ℤ),
        (mkPreferredStock sym ld rate par).isSome = true ↔
          (1 ≤ sym.length ∧ sym.length ≤ 10 ∧ 0 < par ∧ 0 < rate ∧ rate ≤ 1)) ∧
    (∀ (sym : String) (ld par : ℤ) (st : Stock),
        mkCommonStock sym ld par = some st →
          st.symbol = sym ∧ st.par_value_pennies = par ∧
          st.last_dividend_pennies = ld ∧ st.kind = StockKind.common ∧
          st.trades = []) ∧
    (∀ (sym : String) (ld : ℤ) (rate : ℚ) (par : ℤ) (st : Stock),
        mkPreferredStock sym ld rate par = some st →
          st.symbol = sym ∧ st.par_value_pennies = par ∧
          st.last_dividend_pennies = ld ∧ st.kind = StockKind.preferred rate ∧
          st.trades = []) := by
  refine ⟨?_, ?_, ?_, ?_⟩
  · intro sym ld par
    unfold mkCommonStock
    split_ifs with h1 h2 h3
    · refine iff_of_false (by simp) ?_
      rintro ⟨a, b, c, d⟩
      rcases h1 with h | h <;> omega
    · refine iff_of_false (by simp) ?_
      rintro ⟨a, b, c, d⟩
      omega
    · refine iff_of_false (by simp) ?_
      rintro ⟨a, b, c, d⟩
      omega
    · refine iff_of_true (by simp) ?_
      push_neg at h1
      exact ⟨by omega, h1.2, by omega, by omega⟩
  · intro sym ld rate par
    unfold mkPreferredStock
    split_ifs with h1 h2 h3
    · refine iff_of_false (by simp) ?_
      rintro ⟨a, b, c, d, e⟩
      rcases h1 with h | h <;> omega
    · refine iff_of_false (by simp) ?_
      rintro ⟨a, b, c, d, e⟩
      omega
    · refine iff_of_true (by simp) ?_
      push_neg at h1
      exact ⟨by omega, h1.2, by omega, h3.1, h3.2⟩
    · refine iff_of_false (by simp) ?_
      rintro ⟨a, b, c, d, e⟩
      exact h3 ⟨d, e⟩
  · intro sym ld par st h
    unfold mkCommonStock at h
    split_ifs at h <;>
      first
        | (simp only [Option.some.injEq] at h
           subst h
           exact ⟨rfl, rfl, rfl, rfl, rfl⟩)
        | simp at h
  · intro sym ld rate par st h
    unfold mkPreferredStock at h
    split_ifs at h <;>
      first
        | (simp only [Option.some.injEq] at h
           subst h
           exact ⟨rfl, rfl, rfl, rfl, rfl⟩)
        | simp at h

/-- Witness for C3 (amended): constructing TEA with valid concrete arguments
succeeds and stores exactly those arguments as the fields. -/
theorem stock_construction_validation_witness :
    stockTEA0.symbol = "TEA" ∧ stockTEA0.par_value_pennies = 10000 ∧
    stockTEA0.last_dividend_pennies = 0 ∧ stockTEA0.kind = StockKind.common ∧
    stockTEA0.trades = [] :=
  stock_construction_validation.2.2.1 "TEA" 0 10000 stockTEA0 (by
    rw [mkCommonStock, if_neg (by decide), if_neg (by decide), if_neg (by decide)]
    rfl)

/-- C4: pe_ratio is undefined exactly when the price is non-positive or the
last dividend is zero, and otherwise is the exact unrounded quotient
price / last_dividend. -/
theorem pe_ratio_defined_and_exact (s : Stock) (price : ℤ) :
    ( pe_ratio_q s price = none ↔ (price ≤ 0 ∨ s.last_dividend_pennies = 0)) ∧
    (0 < price → s.last_dividend_pennies ≠ 0 →
      pe_ratio_q s price = some ((price : ℚ) / (s.last_dividend_pennies : ℚ))) := by
  unfold pe_ratio_q
  constructor
  · split_ifs with h <;> simp [h]
  · intro hp hd
    rw [if_neg (not_or.mpr ⟨not_le.mpr hp, hd⟩)]

/-- Witness for C4: a stock with last dividend 8 and price 10000 pennies has
the exact P/E ratio 1250. -/
theorem pe_ratio_defined_and_exact_witness :
    pe_ratio_q stockPOP 10000 = some ((10000 : ℚ) / ((8 : ℤ) : ℚ)) := by
  have h := (pe_ratio_defined_and_exact stockPOP 10000).2 (by norm_num)
    (by norm_num [stockPOP])
  simpa [stockPOP] using h

/-- C5: dividend_yield returns the defined value 0.00 for any non-positive
price; for a positive price it is last_dividend * 100 / price for a common
stock and fixed_dividend_rate * par_value * 100 / price for a preferred stock,
rounded half-up to two digits. -/
theorem dividend_yield_cases (s : Stock) (price : ℤ) :
    (price ≤ 0 → dividend_yield s price = 0) ∧
    (0 < price → s.kind = StockKind.common →
      dividend_yield s price =
        roundHalfUp2 ((s.last_dividend_pennies : ℚ) * 100 / (price : ℚ))) ∧
    (∀ rate : ℚ, 0 < price → s.kind = StockKind.preferred rate →
      dividend_yield s price =
        roundHalfUp2 (rate * (s.par_value_pennies : ℚ) * 100 / (price : ℚ))) := by
  obtain ⟨sym, par, ld, k, tr⟩ := s
  cases k with
  | common =>
    refine ⟨fun h => ?_, fun hp _ => ?_, fun rate hp hk => ?_⟩
    · simp [dividend_yield, h]
    · simp [dividend_yield, not_le.mpr hp]
    · exact absurd hk (by simp)
  | preferred r =>
    refine ⟨fun h => ?_, fun hp hk => ?_, fun rate hp hk => ?_⟩
    · simp [dividend_yield, h]
    · exact absurd hk (by simp)
    · simp only [StockKind.preferred.injEq] at hk
      subst hk
      simp [dividend_yield, not_le.mpr hp]

/-- Witness for C5: a common stock with last dividend 8 pennies priced at
10000 pennies yields 8 * 100 / 10000, and a preferred stock with rate 1/50 and
par 10000 priced at 10000 pennies yields (1/50) * 10000 * 100 / 10000, both
via the theorem at those concrete inputs. -/
theorem dividend_yield_cases_witness :
    dividend_yield stockPOP 10000 =
      roundHalfUp2 ((stockPOP.last_dividend_pennies : ℚ) * 100 / ((10000 : ℤ) : ℚ)) ∧
    dividend_yield stockGIN 10000 =
      roundHalfUp2 ((1/50) * (stockGIN.par_value_pennies : ℚ) * 100 / ((10000 : ℤ) : ℚ)) :=
  ⟨(dividend_yield_cases stockPOP 10000).2.1 (by norm_num) rfl,
    (dividend_yield_cases stockGIN 10000).2.2 (1/50) (by norm_num) rfl⟩

/-- C6: record_trade fails exactly on a non-positive quantity or price, leaving
the stock untouched; on success the resulting stock is the original with
exactly one new trade, carrying the given quantity, indicator and price,
appended at the end of the ledger. -/
theorem record_trade_validation (s : Stock) (now : ℚ) (q : ℤ)
    (ind : TradeIndicator) (p : ℤ) :
    (record_trade s now q ind p = none ↔ (q ≤ 0 ∨ p ≤ 0)) ∧
    (∀ s' : Stock, record_trade s now q ind p = some s' →
      s'.trades = s.trades ++ [⟨now, q, ind, p⟩] ∧
      s'.symbol = s.symbol ∧ s'.par_value_pennies = s.par_value_pennies ∧
      s'.last_dividend_pennies = s.last_dividend_pennies ∧ s'.kind = s.kind) := by
  unfold record_trade
  constructor
  · split_ifs with h <;> simp [h]
  · intro s' h
    split_ifs at h
    simp only [Option.some.injEq] at h
    subst h
    exact ⟨rfl, rfl, rfl, rfl, rfl⟩

/-- Witness for C6: recording one valid trade on an empty-ledger stock appends
exactly that trade. -/
theorem record_trade_validation_witness :
    stockTEA1.trades = stockTEA0.trades ++ [⟨0, 1000, TradeIndicator.buy, 9550⟩] ∧
    stockTEA1.symbol = stockTEA0.symbol ∧
    stockTEA1.par_value_pennies = stockTEA0.par_value_pennies ∧
    stockTEA1.last_dividend_pennies = stockTEA0.last_dividend_pennies ∧
    stockTEA1.kind = stockTEA0.kind :=
  (record_trade_validation stockTEA0 0 1000 TradeIndicator.buy 9550).2 stockTEA1
    (by rw [record_trade, if_neg (by norm_num)]; rfl)

/-- C7: creating a common or preferred stock under an already registered
symbol fails with the duplicate-symbol error, and the originally registered
stock is still retrievable under that symbol with all its fields unmodified. -/
theorem duplicate_symbol_create_fails (e : Exchange) (sym : String) (st : Stock)
    (h : get_stock e sym = some st) (ld par ld2 par2 : ℤ) (rate : ℚ) :
    create_common_stock e sym ld par = Except.error CreateError.duplicateSymbol ∧
    create_preferred_stock e sym ld2 rate par2 = Except.error CreateError.duplicateSymbol ∧
    get_stock e sym = some st := by
  have hs : e.hasSymbol sym = true := by
    unfold get_stock at h
    cases hf : e.stocks.find? (fun p => decide (p.1 = sym)) with
    | none => rw [hf] at h; simp at h
    | some p =>
      have hmem := List.mem_of_find?_eq_some hf
      have hp := List.find?_some hf
      exact List.any_eq_true.mpr ⟨p, hmem, hp⟩
  refine ⟨?_, ?_, h⟩
  · rw [create_common_stock, if_pos hs]
  · rw [create_preferred_stock, if_pos hs]

/-- Witness for C7: on an exchange already holding TEA, both create calls
under TEA fail with the duplicate-symbol error and TEA is still retrievable. -/
theorem duplicate_symbol_create_fails_witness :
    create_common_stock exchangeTEA "TEA" 5 100 =
      Except.error CreateError.duplicateSymbol ∧
    create_preferred_stock exchangeTEA "TEA" 5 (1/2) 100 =
      Except.error CreateError.duplicateSymbol ∧
    get_stock exchangeTEA "TEA" = some stockTEA0 :=
  duplicate_symbol_create_fails exchangeTEA "TEA" stockTEA0 (by decide) 5 100 5 100 (1/2)

/-- C8: volume_weighted_stock_price considers exactly the trades whose
timestamp is at least now - window: it factors through the window filter, a
ledger with every trade older than the window yields no result, and a trade
timestamped 10 minutes before the call is never in the 5-minute window. -/
theorem vwsp_window_exactness (s : Stock) (now : ℚ) (w : ℤ) :
    volume_weighted_stock_price s now w =
      vwspOfTrades (tradesSince s.trades (now - (w : ℚ))) ∧
    ((∀ t ∈ s.trades, t.timestamp < now - (w : ℚ)) →
      volume_weighted_stock_price s now w = none) ∧
    (∀ t ∈ s.trades, t.timestamp = now - 10 →
      t ∉ tradesSince s.trades (now - ((5 : ℤ) : ℚ))) := by
  refine ⟨rfl, ?_, ?_⟩
  · intro hall
    have hnil : s.trades.filter (fun t => decide (now - (w : ℚ) ≤ t.timestamp)) = [] := by
      rw [List.filter_eq_nil]
      intro t ht
      simp only [decide_eq_true_eq, not_le]
      exact hall t ht
    simp only [volume_weighted_stock_price, hnil]
    rfl
  · intro t ht hts hmem
    have h5 := (List.mem_filter.mp hmem).2
    rw [decide_eq_true_eq, hts] at h5
    push_cast at h5
    linarith

/-- Witness for C8: a stock whose only trade is 10 minutes old has no
5-minute-window VWSP. -/
theorem vwsp_window_exactness_witness :
    volume_weighted_stock_price stockOld 0 5 = none :=
  (vwsp_window_exactness stockOld 0 5).2.1 (by norm_num [stockOld])

/-- The index's `or 0` plus positivity filter keeps exactly the stocks whose
VWSP is defined and strictly positive: an undefined VWSP is materialised as 0
and then dropped by the filter. -/
theorem qualifyingVWSPs_eq_filterMap (stocks : List Stock) (now : ℚ) :
    qualifyingVWSPs stocks now =
      stocks.filterMap (fun s =>
        (volume_weighted_stock_price s now 5).bind
          (fun v => if 0 < v then some v else none)) := by
  induction stocks with
  | nil => rfl
  | cons s rest ih =>
    simp only [qualifyingVWSPs] at ih
    simp only [qualifyingVWSPs, List.map_cons, List.filter_cons, List.filterMap_cons]
    cases h : volume_weighted_stock_price s now 5 with
    | none => simp [h, ih]
    | some v =>
      by_cases hv : 0 < v
      · simp [h, hv, ih]
      · simp [h, hv, ih]

/-- C2: the all-share index aggregates exactly the registered stocks whose
current VWSP is defined and strictly positive (a stock with no trades in the
window is omitted, not treated as zero), and the index is undefined precisely
when no stock qualifies — so with zero qualifying stocks it returns no result
rather than zero. -/
theorem all_share_index_qualification (e : Exchange) (now : ℚ) :
    qualifyingVWSPs (e.stocks.map (fun p => p.2)) now =
      (e.stocks.map (fun p => p.2)).filterMap (fun s =>
        (volume_weighted_stock_price s now 5).bind
          (fun v => if 0 < v then some v else none)) ∧
    (gbce_all_share_index e now = none ↔
      qualifyingVWSPs (e.stocks.map (fun p => p.2)) now = []) := by
  refine ⟨qualifyingVWSPs_eq_filterMap _ _, ?_⟩
  simp only [gbce_all_share_index]
  cases hq : qualifyingVWSPs (e.stocks.map (fun p => p.2)) now with
  | nil => simp
  | cons v vs => simp

/-- Each trade contributes at least its quantity to the weighted sum when all
prices are at least one penny. -/
theorem sum_qty_le_weighted_sum (l : List Trade)
    (h : ∀ t ∈ l, 0 < t.quantity ∧ 0 < t.price_pennies) :
    (l.map (fun t => t.quantity)).sum ≤
      (l.map (fun t => t.quantity * t.price_pennies)).sum := by
  apply List.sum_le_sum
  intro t ht
  obtain ⟨hq, hp⟩ := h t ht
  nlinarith

/-- A non-empty list of positive quantities has a positive sum. -/
theorem sum_qty_pos (l : List Trade) (hne : l ≠ [])
    (h : ∀ t ∈ l, 0 < t.quantity) : 0 < (l.map (fun t => t.quantity)).sum := by
  apply List.sum_pos
  · intro q hq
    obtain ⟨t, ht, rfl⟩ := List.mem_map.mp hq
    exact h t ht
  · simpa using hne

/-- Half-up rounding to two digits never drops a value below one hundredth. -/
theorem roundHalfUp2_ge_centi (x : ℚ) (h : 1/100 ≤ x) : 1/100 ≤ roundHalfUp2 x := by
  have hx : 0 ≤ x := le_trans (by norm_num) h
  rw [roundHalfUp2, if_pos hx]
  have h1 : (1 : ℤ) ≤ ⌊x * 100 + 1/2⌋ := by
    apply Int.le_floor.mpr
    push_cast
    linarith
  have h2 : (1 : ℚ) ≤ ((⌊x * 100 + 1/2⌋ : ℤ) : ℚ) := by exact_mod_cast h1
  linarith

/-- C10: record_trade preserves the invariant that every ledger entry has a
positive quantity and a price of at least one penny, and under that invariant
every defined volume-weighted stock price is at least 0.01 — in particular
strictly positive, so it is never dropped by the index's positivity filter. -/
theorem vwsp_defined_implies_min_penny :
    (∀ (s : Stock) (now : ℚ) (q : ℤ) (ind : TradeIndicator) (p : ℤ) (s' : Stock),
        (∀ t ∈ s.trades, 0 < t.quantity ∧ 0 < t.price_pennies) →
        record_trade s now q ind p = some s' →
        (∀ t ∈ s'.trades, 0 < t.quantity ∧ 0 < t.price_pennies)) ∧
    (∀ (s : Stock) (now : ℚ) (w : ℤ) (v : ℚ),
        (∀ t ∈ s.trades, 0 < t.quantity ∧ 0 < t.price_pennies) →
        volume_weighted_stock_price s now w = some v →
        1/100 ≤ v ∧ 0 < v) := by
  constructor
  · intro s now q ind p s' hvalid h
    rw [record_trade] at h
    split_ifs at h with hc
    simp only [Option.some.injEq] at h
    subst h
    intro t ht
    rcases List.mem_append.mp ht with h1 | h1
    · exact hvalid t h1
    · push_neg at hc
      rcases List.mem_singleton.mp h1 with rfl
      exact ⟨hc.1, hc.2⟩
  · intro s now w v hvalid h
    simp only [volume_weighted_stock_price] at h
    split_ifs at h with h1 h2
    simp only [Option.some.injEq] at h
    subst h
    have hsub : ∀ t ∈ s.trades.filter (fun t => decide (now - (w : ℚ) ≤ t.timestamp)),
        0 < t.quantity ∧ 0 < t.price_pennies := by
      intro t ht
      exact hvalid t (List.mem_filter.mp ht).1
    have hrne : s.trades.filter (fun t => decide (now - (w : ℚ) ≤ t.timestamp)) ≠ [] := by
      intro hnil
      rw [hnil] at h1
      exact h1 rfl
    have htpos : 0 <
        ((s.trades.filter (fun t => decide (now - (w : ℚ) ≤ t.timestamp))).map
          (fun t => t.quantity)).sum :=
      sum_qty_pos _ hrne (fun t ht => (hsub t ht).1)
    have hle := sum_qty_le_weighted_sum _ hsub
    have htq : (0 : ℚ) <
        ((((s.trades.filter (fun t => decide (now - (w : ℚ) ≤ t.timestamp))).map
          (fun t => t.quantity)).sum : ℤ) : ℚ) := by exact_mod_cast htpos
    have hwq :
        ((((s.trades.filter (fun t => decide (now - (w : ℚ) ≤ t.timestamp))).map
          (fun t => t.quantity)).sum : ℤ) : ℚ) ≤
        ((((s.trades.filter (fun t => decide (now - (w : ℚ) ≤ t.timestamp))).map
          (fun t => t.quantity * t.price_pennies)).sum : ℤ) : ℚ) := by
      exact_mod_cast hle
    have hone : (1 : ℚ) ≤
        ((((s.trades.filter (fun t => decide (now - (w : ℚ) ≤ t.timestamp))).map
          (fun t => t.quantity * t.price_pennies)).sum : ℤ) : ℚ) /
        ((((s.trades.filter (fun t => decide (now - (w : ℚ) ≤ t.timestamp))).map
          (fun t => t.quantity)).sum : ℤ) : ℚ) := by
      rw [le_div_iff htq]
      linarith
    have hcent := roundHalfUp2_ge_centi _ (by linarith :
      1/100 ≤
        ((((s.trades.filter (fun t => decide (now - (w : ℚ) ≤ t.timestamp))).map
          (fun t => t.quantity * t.price_pennies)).sum : ℤ) : ℚ) /
        ((((s.trades.filter (fun t => decide (now - (w : ℚ) ≤ t.timestamp))).map
          (fun t => t.quantity)).sum : ℤ) : ℚ) / 100)
    exact ⟨hcent, lt_of_lt_of_le (by norm_num) hcent⟩

/-- Witness for C10: on the worked-example ledger, whose trades all have
positive quantity and price, the defined VWSP 100.03 is at least 0.01. -/
theorem vwsp_defined_implies_min_penny_witness :
    1/100 ≤ (10003/100 : ℚ) ∧ (0 : ℚ) < 10003/100 :=
  vwsp_defined_implies_min_penny.2 exampleStock 0 5 (10003/100)
    (by norm_num [exampleStock])
    (by norm_num [volume_weighted_stock_price, exampleStock, roundHalfUp2])

/-- C9: whenever at least one stock qualifies, the all-share index is the
exp of the mean of the natural logs of the qualifying VWSPs — the form the
source computes, rather than a product followed by an nth root — rounded once,
half-up, to two digits; over two stocks whose VWSPs are 4.00 and 9.00 it
equals exactly 6.00. -/
theorem all_share_index_exp_mean_log :
    (∀ (e : Exchange) (now : ℚ),
        qualifyingVWSPs (e.stocks.map (fun p => p.2)) now ≠ [] →
        gbce_all_share_index e now =
          some (roundHalfUp2R (Real.exp
            (((qualifyingVWSPs (e.stocks.map (fun p => p.2)) now).map
                (fun v => Real.log ((v : ℚ) : ℝ))).sum /
              ((qualifyingVWSPs (e.stocks.map (fun p => p.2)) now).length : ℝ))))) ∧
    gbce_all_share_index exchangeFourNine 0 = some 6 := by
  constructor
  · intro e now hne
    simp only [gbce_all_share_index]
    rw [if_neg (by simpa [List.isEmpty_iff] using hne)]
  · have hq : qualifyingVWSPs (exchangeFourNine.stocks.map (fun p => p.2)) 0 =
        [4, 9] := by
      norm_num [qualifyingVWSPs, exchangeFourNine, stockFour, stockNine,
        volume_weighted_stock_price, roundHalfUp2]
    simp only [gbce_all_share_index, hq]
    rw [if_neg (by simp)]
    congr 1
    have hcast :
        (List.map (fun v => Real.log ((v : ℚ) : ℝ)) [4, 9]).sum =
          Real.log 4 + Real.log 9 := by
      simp only [List.map_cons, List.map_nil, List.sum_cons, List.sum_nil]
      norm_num
    rw [hcast]
    have hlen : ((List.length [(4 : ℚ), 9] : ℕ) : ℝ) = 2 := by norm_num
    rw [hlen]
    have hlog : Real.log 4 + Real.log 9 = 2 * Real.log 6 := by
      rw [← Real.log_mul (by norm_num) (by norm_num)]
      rw [show (4 : ℝ) * 9 = 6 ^ 2 by norm_num, Real.log_pow]
      push_cast
      ring
    rw [hlog]
    have hexp : Real.exp (2 * Real.log 6 / 2) = 6 := by
      rw [show (2 : ℝ) * Real.log 6 / 2 = Real.log 6 from by ring]
      exact Real.exp_log (by norm_num)
    rw [hexp, roundHalfUp2R, if_pos (by norm_num : (0 : ℝ) ≤ 6)]
    have hfl : ⌊(6 : ℝ) * 100 + 1/2⌋ = 600 := by
      rw [Int.floor_eq_iff]
      constructor <;> norm_num
    rw [hfl]
    norm_num

/-- Witness for C9: the exp-mean-log form of the theorem instantiated on the
two-stock exchange with VWSPs 4.00 and 9.00. -/
theorem all_share_index_exp_mean_log_witness :
    gbce_all_share_index exchangeFourNine 0 =
      some (roundHalfUp2R (Real.exp
        (((qualifyingVWSPs (exchangeFourNine.stocks.map (fun p => p.2)) 0).map
            (fun v => Real.log ((v : ℚ) : ℝ))).sum /
          ((qualifyingVWSPs (exchangeFourNine.stocks.map (fun p => p.2)) 0).length : ℝ)))) :=
  all_share_index_exp_mean_log.1 exchangeFourNine 0 (by
    have hq : qualifyingVWSPs (exchangeFourNine.stocks.map (fun p => p.2)) 0 =
        [4, 9] := by
      norm_num [qualifyingVWSPs, exchangeFourNine, stockFour, stockNine,
        volume_weighted_stock_price, roundHalfUp2]
    rw [hq]
    simp)

end GBCE
